import Mathlib

/-!
Shallow embedding of `src/hashing.cpp` (extendible hashing).

Modelling conventions:
* C++ `int` is modelled as `Int`; C++ `%` (truncated toward zero) is `Int.tmod`,
  C++ `/` on non-negative operands is `Int.tdiv`.
* `DataBucket` pointers are modelled as indices (`Nat`) into an arena `heap`
  holding every bucket ever allocated; `new` appends to the arena, `delete`
  marks the index dead in `dead` and runs the destructor (`data.clear()`).
  Reads and writes through a dead id operate on the stale record, the concrete
  behaviour of the freed memory before reuse.
* `std::set<int>` is a strictly sorted `List Int`; iteration order is ascending,
  matching the C++ range-for over the set.
* Undefined behaviour that the claims talk about (a shift by a negative amount,
  a directory subscript outside `[0, buckets.size())`) sets the `ub` flag; the
  computation then continues with a junk value, so every operation stays total.
* The mutual recursion `add` ↔ `splitImage` is made structural with an explicit
  fuel parameter; `none` means the fuel ran out before the call returned.
-/

namespace Hashing

/-- `std::set<int>::insert` on a strictly sorted list. -/
def setInsert (x : Int) : List Int → List Int
  | [] => [x]
  | y :: ys => if x < y then x :: y :: ys else if x = y then y :: ys else y :: setInsert x ys

/-- `std::set<int>::erase` on a strictly sorted list. -/
def setErase (x : Int) (l : List Int) : List Int := l.filter (fun y => y ≠ x)

/-- Container for Buckets (class `DataBucket`): capacity `size`, `localDepth`,
and the sorted unique `data`. -/
structure DataBucket where
  size : Int
  localDepth : Int
  data : List Int
deriving Repr, DecidableEq

/-- `DataBucket::insert`: 1 if already present, otherwise the element is added;
0 if the new size is within capacity, 2 on overflow (element retained). -/
def DataBucket.insert (b : DataBucket) (x : Int) : DataBucket × Int :=
  if b.data.contains x then (b, 1)
  else
    let d := setInsert x b.data
    if (d.length : Int) ≤ b.size then ({ b with data := d }, 0)
    else ({ b with data := d }, 2)

/-- `DataBucket::erase`: removes the key if present, no-op otherwise. -/
def DataBucket.erase (b : DataBucket) (k : Int) : DataBucket :=
  { b with data := setErase k b.data }

/-- `1 << n` for the non-negative shifts the algorithm intends. -/
def pow2 (n : Int) : Int := (2 : Int) ^ n.toNat

/-- State of the `ExtendibleHashMap`: `globalDepth`, `bucketSize`, the directory
`buckets` of bucket ids, plus the model bookkeeping (`heap` arena, `dead` set of
released ids, `ub` flag). -/
structure ExtendibleHashMap where
  globalDepth : Int
  bucketSize : Int
  buckets : List Nat
  heap : List DataBucket
  dead : List Nat
  ub : Bool
deriving Repr, DecidableEq

namespace ExtendibleHashMap

/-- Dereference a bucket id. -/
def bkt (s : ExtendibleHashMap) (id : Nat) : DataBucket := s.heap.getD id ⟨0, 0, []⟩

/-- Write through a bucket id. -/
def setBkt (s : ExtendibleHashMap) (id : Nat) (b : DataBucket) : ExtendibleHashMap :=
  { s with heap := s.heap.set id b }

/-- Read the directory entry at a (possibly junk) signed index. -/
def slotId (s : ExtendibleHashMap) (i : Int) : Nat := s.buckets.getD i.toNat 0

/-- Record the UB of `1 << n` with `n < 0`. -/
def chkShift (s : ExtendibleHashMap) (n : Int) : ExtendibleHashMap :=
  if n < 0 then { s with ub := true } else s

/-- Record the UB of `buckets[i]` with `i` outside the directory. -/
def chkSlot (s : ExtendibleHashMap) (i : Int) : ExtendibleHashMap :=
  if 0 ≤ i ∧ i < (s.buckets.length : Int) then s else { s with ub := true }

/-- `_getBucketIndex(_key, _globalDepth) = _key % (1 << _globalDepth)`. -/
def _getBucketIndex (key gd : Int) : Int := Int.tmod key (pow2 gd)

/-- `ExtendibleHashMap(_globalDepth, _size)`: `2^gd` slots, one fresh bucket per
slot, every bucket with local depth `_globalDepth` and capacity `_size`. -/
def mkTable (gd size : Int) : ExtendibleHashMap :=
  let n := (pow2 gd).toNat
  { globalDepth := gd
    bucketSize := size
    buckets := List.range n
    heap := List.replicate n ⟨size, gd, []⟩
    dead := []
    ub := false }

/-- `extend()`: increment `globalDepth`, resize the directory to `2^globalDepth`,
and point every slot from `2^oldDepth` on to the bucket of slot `i mod 2^oldDepth`. -/
def extend (s : ExtendibleHashMap) : ExtendibleHashMap :=
  let oldDepth := s.globalDepth
  let s1 : ExtendibleHashMap := { s with globalDepth := oldDepth + 1 }
  let s2 := chkShift (chkShift s1 (oldDepth + 1)) oldDepth
  let newLen := (pow2 (oldDepth + 1)).toNat
  let slots := (List.range newLen).map (fun i =>
    if i < s2.buckets.length then s2.buckets.getD i 0
    else if pow2 oldDepth ≤ (i : Int) then
      s2.buckets.getD (_getBucketIndex (i : Int) oldDepth).toNat 0
    else 0)
  { s2 with buckets := slots }

/-- `getImageIndex(splitIndex)` with `oldSize = 1 << (globalDepth - 1)`:
`buckets.size() - (oldSize - splitIndex)` below `oldSize`, else `splitIndex - oldSize`.
Also returns the state with the UB flag of the shift at `globalDepth = 0`. -/
def getImageIndex (s : ExtendibleHashMap) (splitIndex : Int) : ExtendibleHashMap × Int :=
  let s1 := chkShift s (s.globalDepth - 1)
  let oldSize := pow2 (s.globalDepth - 1)
  let imageIndex :=
    if splitIndex < oldSize then (s.buckets.length : Int) - (oldSize - splitIndex)
    else splitIndex - oldSize
  (s1, imageIndex)

/-- Re-insert a drained key list (ascending) through the given insert entry
point, threading the state; the body of the range-for in `splitImage`. -/
def reinsertGo (addOne : ExtendibleHashMap → Int → Option (ExtendibleHashMap × Int)) :
    ExtendibleHashMap → List Int → Option ExtendibleHashMap
  | s, [] => some s
  | s, e :: rest =>
    match addOne s e with
    | none => none
    | some (s2, _) => reinsertGo addOne s2 rest

/-- `splitImage(splitIndex)` with the insert entry point abstracted:
compute `halfSize = 1 << (globalDepth - 1)`, the new-bucket slot and the data
slot, allocate the fresh bucket with `localDepth = globalDepth`, drain the data
bucket, bump its local depth, and re-insert every drained key. -/
def splitImageGo (addOne : ExtendibleHashMap → Int → Option (ExtendibleHashMap × Int))
    (s : ExtendibleHashMap) (splitIndex : Int) : Option ExtendibleHashMap :=
  let s1 := chkShift s (s.globalDepth - 1)
  let halfSize := pow2 (s.globalDepth - 1)
  let newBucketIndex :=
    if splitIndex < halfSize then (s1.buckets.length : Int) - (halfSize - splitIndex)
    else splitIndex
  let dataCopy := if splitIndex < halfSize then splitIndex else splitIndex - halfSize
  let newId := s1.heap.length
  let s2 : ExtendibleHashMap := { s1 with heap := s1.heap ++ [⟨s1.bucketSize, s1.globalDepth, []⟩] }
  let s3 := chkSlot s2 newBucketIndex
  let s4 : ExtendibleHashMap := { s3 with buckets := s3.buckets.set newBucketIndex.toNat newId }
  let s5 := chkSlot s4 dataCopy
  let dcId := s5.slotId dataCopy
  let bucketData := (s5.bkt dcId).data
  let s6 := s5.setBkt dcId
    { s5.bkt dcId with data := [], localDepth := (s5.bkt dcId).localDepth + 1 }
  reinsertGo addOne s6 bucketData

/-- `add(key)` with fuel: locate the slot, insert into its bucket; on overflow
extend when the bucket's local depth equals the global depth, then split; the
slot index computed at entry is returned. -/
def add : Nat → ExtendibleHashMap → Int → Option (ExtendibleHashMap × Int)
  | 0, _, _ => none
  | Nat.succ fuel, s, key =>
    let s1 := chkShift s s.globalDepth
    let bucketIndex := _getBucketIndex key s1.globalDepth
    let s2 := chkSlot s1 bucketIndex
    let id := s2.slotId bucketIndex
    let br := (s2.bkt id).insert key
    let s3 := s2.setBkt id br.1
    if br.2 = 2 then
      let s4 := if br.1.localDepth = s3.globalDepth then extend s3 else s3
      match splitImageGo (add fuel) s4 bucketIndex with
      | none => none
      | some s5 => some (s5, bucketIndex)
    else some (s3, bucketIndex)

/-- `splitImage` proper: `splitImageGo` with the recursive `add` plugged in. -/
def splitImage (fuel : Nat) (s : ExtendibleHashMap) (splitIndex : Int) :
    Option ExtendibleHashMap :=
  splitImageGo (add fuel) s splitIndex

/-- The merge guard of `remove`: the image slot differs from the hashed slot and
both referenced buckets' sizes are at most `bucketSize / 2`. -/
def mergeCond (s : ExtendibleHashMap) (bucketIndex image : Int) : Bool :=
  image ≠ bucketIndex
    && ((s.bkt (s.slotId bucketIndex)).data.length : Int) ≤ Int.tdiv s.bucketSize 2
    && ((s.bkt (s.slotId image)).data.length : Int) ≤ Int.tdiv s.bucketSize 2

/-- The merge body of `remove`: order the pair so `lo < hi`, move every key of
the `hi` bucket into the `lo` bucket, delete the `hi` bucket, repoint the `hi`
slot to the `lo` bucket, decrement the surviving bucket's local depth. -/
def mergeStep (s : ExtendibleHashMap) (bucketIndex image : Int) : ExtendibleHashMap :=
  let lo := if bucketIndex > image then image else bucketIndex
  let hi := if bucketIndex > image then bucketIndex else image
  let loId := s.slotId lo
  let hiId := s.slotId hi
  let s1 := ((s.bkt hiId).data).foldl (fun t e => t.setBkt loId ((t.bkt loId).insert e).1) s
  let s2 := s1.setBkt hiId { s1.bkt hiId with data := [] }
  let s3 : ExtendibleHashMap := { s2 with dead := s2.dead ++ [hiId] }
  let s4 : ExtendibleHashMap := { s3 with buckets := s3.buckets.set hi.toNat loId }
  s4.setBkt (s4.slotId lo)
    { s4.bkt (s4.slotId lo) with localDepth := (s4.bkt (s4.slotId lo)).localDepth - 1 }

/-- The shrink guard of `remove`: every slot's bucket has the local depth of
slot 0's bucket, and that local depth is `globalDepth - 1`. -/
def shrinkCond (s : ExtendibleHashMap) : Bool :=
  (s.buckets.all (fun id =>
      (s.bkt id).localDepth = (s.bkt (s.buckets.getD 0 0)).localDepth))
    && (s.globalDepth - 1 = (s.bkt (s.buckets.getD 0 0)).localDepth)

/-- `reduceDirectory()`: decrement `globalDepth` and halve the directory. -/
def reduceDirectory (s : ExtendibleHashMap) : ExtendibleHashMap :=
  let s1 : ExtendibleHashMap := { s with globalDepth := s.globalDepth - 1 }
  let s2 := chkShift s1 s1.globalDepth
  { s2 with buckets := s2.buckets.take (pow2 s2.globalDepth).toNat }

/-- `remove(key)`: erase from the hashed bucket, merge with the image bucket
when the guard holds, then shrink when every bucket's local depth is
`globalDepth - 1`. -/
def remove (s : ExtendibleHashMap) (key : Int) : ExtendibleHashMap :=
  let s1 := chkShift s s.globalDepth
  let bucketIndex := _getBucketIndex key s1.globalDepth
  let p := getImageIndex s1 bucketIndex
  let s2 := p.1
  let image := p.2
  let s3 := chkSlot s2 bucketIndex
  let id := s3.slotId bucketIndex
  let s4 := s3.setBkt id ((s3.bkt id).erase key)
  let s5 := if mergeCond s4 bucketIndex image then mergeStep s4 bucketIndex image else s4
  if shrinkCond s5 then reduceDirectory s5 else s5

end ExtendibleHashMap

/-- Run a list of inserts with the given fuel per insert. -/
def insertAll (fuel : Nat) (s : ExtendibleHashMap) (keys : List Int) :
    Option ExtendibleHashMap :=
  ExtendibleHashMap.reinsertGo (ExtendibleHashMap.add fuel) s keys

open ExtendibleHashMap

/-- Number of directory slots referencing bucket `id`. -/
def refCount (s : ExtendibleHashMap) (id : Nat) : Nat :=
  (s.buckets.filter (fun j => j = id)).length

/-- Directory indices referencing bucket `id`. -/
def refIndices (s : ExtendibleHashMap) (id : Nat) : List Nat :=
  (List.range s.buckets.length).filter (fun j => s.buckets.getD j 0 = id)

/-- Arena ids that have not been released. -/
def liveIds (s : ExtendibleHashMap) : List Nat :=
  (List.range s.heap.length).filter (fun id => !s.dead.contains id)

/-- The reference-counting and addressing facts for one bucket: a local depth
`d` within `[0, globalDepth]`, exactly `2^(globalDepth - d)` referencing slots,
and all referencing slot indices agreeing on the low `d` bits. -/
def bucketRefOk (s : ExtendibleHashMap) (id : Nat) : Bool :=
  let d := (s.bkt id).localDepth
  let idxs := refIndices s id
  decide (0 ≤ d) && decide (d ≤ s.globalDepth)
    && decide ((refCount s id : Int) = pow2 (s.globalDepth - d))
    && idxs.all (fun j => j % 2 ^ d.toNat = idxs.headD 0 % 2 ^ d.toNat)

/-- The reference-counting invariant over every live bucket. -/
def refInvariant (s : ExtendibleHashMap) : Bool :=
  (liveIds s).all (fun id => bucketRefOk s id)

/-- A key is present in the table (in the bucket of some directory slot). -/
def keyPresent (s : ExtendibleHashMap) (k : Int) : Bool :=
  s.buckets.any (fun id => (s.bkt id).data.contains k)

/-- The slot index `add` computes at entry: `key mod 2^globalDepth`. -/
def hashSlot (s : ExtendibleHashMap) (key : Int) : Int :=
  _getBucketIndex key s.globalDepth

/-- The bucket insert `add` performs first: new bucket contents and return code. -/
def probeInsert (s : ExtendibleHashMap) (key : Int) : DataBucket × Int :=
  (s.bkt (s.slotId (hashSlot s key))).insert key

/-- The state after `add`'s initial bucket insert, before any extend/split. -/
def insertedState (s : ExtendibleHashMap) (key : Int) : ExtendibleHashMap :=
  s.setBkt (s.slotId (hashSlot s key)) (probeInsert s key).1

/-- Half the directory length as `splitImage` computes it: `1 << (globalDepth - 1)`. -/
def splitHalf (s : ExtendibleHashMap) : Int := pow2 (s.globalDepth - 1)

/-- The slot that receives the fresh bucket in `splitImage`. -/
def splitNewIndex (s : ExtendibleHashMap) (splitIndex : Int) : Int :=
  if splitIndex < splitHalf s then (s.buckets.length : Int) - (splitHalf s - splitIndex)
  else splitIndex

/-- The slot whose bucket `splitImage` drains. -/
def splitDataCopy (s : ExtendibleHashMap) (splitIndex : Int) : Int :=
  if splitIndex < splitHalf s then splitIndex else splitIndex - splitHalf s

/-- The state `splitImage` builds before re-inserting the drained keys: fresh
bucket (capacity `bucketSize`, local depth `globalDepth`, empty) appended to
the heap and placed at `splitNewIndex`; the drained bucket emptied with its
local depth incremented. -/
def splitPrepared (s : ExtendibleHashMap) (splitIndex : Int) : ExtendibleHashMap :=
  { globalDepth := s.globalDepth
    bucketSize := s.bucketSize
    buckets := s.buckets.set (splitNewIndex s splitIndex).toNat s.heap.length
    heap := (s.heap ++ [(⟨s.bucketSize, s.globalDepth, []⟩ : DataBucket)]).set (s.slotId splitIndex)
        (⟨(s.bkt (s.slotId splitIndex)).size, (s.bkt (s.slotId splitIndex)).localDepth + 1, []⟩ : DataBucket)
    dead := s.dead
    ub := s.ub }

def mergeLo (bi im : Int) : Int := if bi > im then im else bi

def mergeHi (bi im : Int) : Int := if bi > im then bi else im

def removeErased (s : ExtendibleHashMap) (key : Int) : ExtendibleHashMap :=
  s.setBkt (s.slotId (hashSlot s key)) ((s.bkt (s.slotId (hashSlot s key))).erase key)

/-- The capacity-2 table after inserting 0, 2, 4 (the C3 base state). -/
def c3s : ExtendibleHashMap :=
  { globalDepth := 2, bucketSize := 2, buckets := [0, 1, 2, 1],
    heap := [⟨2, 2, [0, 4]⟩, ⟨2, 1, []⟩, ⟨2, 2, [2]⟩], dead := [], ub := false }

/-- The C3 base state after `remove 1`. -/
def c3r : ExtendibleHashMap := remove c3s 1

/-- The capacity-2 table after inserting 1, 2, 3, 4, 5 (the C5 base state). -/
def c5s : ExtendibleHashMap :=
  { globalDepth := 2, bucketSize := 2, buckets := [0, 1, 0, 2],
    heap := [⟨2, 1, [2, 4]⟩, ⟨2, 2, [1, 5]⟩, ⟨2, 2, [3]⟩], dead := [], ub := false }

/-- The C5 base state after `remove 4`. -/
def c5r : ExtendibleHashMap := remove c5s 4

/-- The reachable state after capacity-1 inserts of 9, 4, 15, 1. -/
def divState : ExtendibleHashMap :=
  { globalDepth := 4, bucketSize := 1,
    buckets := [0, 1, 0, 2, 0, 3, 0, 2, 0, 4, 0, 2, 0, 3, 0, 2],
    heap := [⟨1, 1, [4]⟩, ⟨1, 4, [1]⟩, ⟨1, 2, [15]⟩, ⟨1, 3, []⟩, ⟨1, 4, [9]⟩],
    dead := [], ub := false }

/-- `divState` after the bucket insert of 2 overflowed slot 2's bucket. -/
def divS3 : ExtendibleHashMap :=
  { divState with heap := [⟨1, 1, [2, 4]⟩, ⟨1, 4, [1]⟩, ⟨1, 2, [15]⟩, ⟨1, 3, []⟩, ⟨1, 4, [9]⟩] }

/-- `divS3` after the split of slot 2 placed the fresh bucket at slot 10. -/
def divP0 : ExtendibleHashMap :=
  { globalDepth := 4, bucketSize := 1,
    buckets := [0, 1, 0, 2, 0, 3, 0, 2, 0, 4, 5, 2, 0, 3, 0, 2],
    heap := [⟨1, 2, []⟩, ⟨1, 4, [1]⟩, ⟨1, 2, [15]⟩, ⟨1, 3, []⟩, ⟨1, 4, [9]⟩, ⟨1, 4, []⟩],
    dead := [], ub := false }

/-- `divP0` after re-inserting the drained key 2. -/
def divP1 : ExtendibleHashMap :=
  { divP0 with heap := [⟨1, 2, [2]⟩, ⟨1, 4, [1]⟩, ⟨1, 2, [15]⟩, ⟨1, 3, []⟩, ⟨1, 4, [9]⟩, ⟨1, 4, []⟩] }

/-- `(chkShift s n).globalDepth = s.globalDepth`, and the same for the other
fields except `ub`. -/
theorem chkShift_globalDepth (s : ExtendibleHashMap) (n : Int) :
    (chkShift s n).globalDepth = s.globalDepth := by
  unfold chkShift; split <;> rfl

theorem chkShift_buckets (s : ExtendibleHashMap) (n : Int) :
    (chkShift s n).buckets = s.buckets := by
  unfold chkShift; split <;> rfl

theorem chkShift_heap (s : ExtendibleHashMap) (n : Int) :
    (chkShift s n).heap = s.heap := by
  unfold chkShift; split <;> rfl

theorem chkShift_bucketSize (s : ExtendibleHashMap) (n : Int) :
    (chkShift s n).bucketSize = s.bucketSize := by
  unfold chkShift; split <;> rfl

theorem chkShift_dead (s : ExtendibleHashMap) (n : Int) :
    (chkShift s n).dead = s.dead := by
  unfold chkShift; split <;> rfl

theorem chkSlot_globalDepth (s : ExtendibleHashMap) (i : Int) :
    (chkSlot s i).globalDepth = s.globalDepth := by
  unfold chkSlot; split <;> rfl

theorem chkSlot_buckets (s : ExtendibleHashMap) (i : Int) :
    (chkSlot s i).buckets = s.buckets := by
  unfold chkSlot; split <;> rfl

theorem chkSlot_heap (s : ExtendibleHashMap) (i : Int) :
    (chkSlot s i).heap = s.heap := by
  unfold chkSlot; split <;> rfl

theorem chkSlot_bucketSize (s : ExtendibleHashMap) (i : Int) :
    (chkSlot s i).bucketSize = s.bucketSize := by
  unfold chkSlot; split <;> rfl

theorem chkSlot_dead (s : ExtendibleHashMap) (i : Int) :
    (chkSlot s i).dead = s.dead := by
  unfold chkSlot; split <;> rfl

theorem pow2_pos (n : Int) : 0 < pow2 n := pow_pos (by norm_num) _

theorem chkShift_of_nonneg (s : ExtendibleHashMap) (n : Int) (h : 0 ≤ n) :
    chkShift s n = s := by
  unfold chkShift; rw [if_neg (by omega)]

theorem chkSlot_of_range (s : ExtendibleHashMap) (i : Int)
    (h1 : 0 ≤ i) (h2 : i < (s.buckets.length : Int)) : chkSlot s i = s := by
  unfold chkSlot; rw [if_pos ⟨h1, h2⟩]

theorem setBkt_globalDepth (s : ExtendibleHashMap) (id : Nat) (b : DataBucket) :
    (s.setBkt id b).globalDepth = s.globalDepth := rfl

theorem setBkt_buckets (s : ExtendibleHashMap) (id : Nat) (b : DataBucket) :
    (s.setBkt id b).buckets = s.buckets := rfl

theorem setBkt_bucketSize (s : ExtendibleHashMap) (id : Nat) (b : DataBucket) :
    (s.setBkt id b).bucketSize = s.bucketSize := rfl

theorem _getBucketIndex_nonneg (key gd : Int) (h : 0 ≤ key) :
    0 ≤ _getBucketIndex key gd := Int.tmod_nonneg _ h

theorem _getBucketIndex_lt (key gd : Int) :
    _getBucketIndex key gd < pow2 gd := Int.tmod_lt_of_pos _ (pow2_pos gd)

theorem getD_range_map {α : Type} (f : Nat → α) (n j : Nat) (d : α) (h : j < n) :
    ((List.range n).map f).getD j d = f j := by
  rw [List.getD_eq_getElem?_getD, List.getElem?_map, List.getElem?_range h]
  rfl

/-- Everything `extend` does, stated over the fields: global depth up by one,
directory doubled, lower half untouched, each upper-half slot `j` aliased to
the bucket of slot `j mod 2^oldDepth`, heap and dead set untouched. -/
theorem extend_spec (s : ExtendibleHashMap)
    (hgd : 0 ≤ s.globalDepth)
    (hlen : (s.buckets.length : Int) = pow2 s.globalDepth) :
    (extend s).globalDepth = s.globalDepth + 1
    ∧ (extend s).bucketSize = s.bucketSize
    ∧ (extend s).heap = s.heap
    ∧ (extend s).dead = s.dead
    ∧ (extend s).ub = s.ub
    ∧ (extend s).buckets.length = 2 * s.buckets.length
    ∧ (∀ j : Nat, j < s.buckets.length →
        (extend s).buckets.getD j 0 = s.buckets.getD j 0)
    ∧ (∀ j : Nat, s.buckets.length ≤ j → j < 2 * s.buckets.length →
        (extend s).buckets.getD j 0 = s.buckets.getD (j % s.buckets.length) 0) := by
  have hlen' : s.buckets.length = 2 ^ s.globalDepth.toNat := by
    have : ((2 : Int) ^ s.globalDepth.toNat) = ((2 ^ s.globalDepth.toNat : Nat) : Int) := by
      push_cast; ring
    rw [pow2] at hlen; omega
  have hpow : (pow2 (s.globalDepth + 1)).toNat = 2 * s.buckets.length := by
    rw [pow2, show (s.globalDepth + 1).toNat = s.globalDepth.toNat + 1 by omega, pow_succ]
    rw [hlen']
    have h2 : ((2 : Int) ^ s.globalDepth.toNat) = ((2 ^ s.globalDepth.toNat : Nat) : Int) := by
      push_cast; ring
    rw [h2, show ((2 ^ s.globalDepth.toNat : Nat) : Int) * 2 = ((2 ^ s.globalDepth.toNat * 2 : Nat) : Int) by push_cast; ring, Int.toNat_ofNat]
    ring
  unfold extend
  have hsh1 : ∀ t : ExtendibleHashMap, chkShift t (s.globalDepth + 1) = t := fun t =>
    chkShift_of_nonneg t _ (by omega)
  have hsh2 : ∀ t : ExtendibleHashMap, chkShift t s.globalDepth = t := fun t =>
    chkShift_of_nonneg t _ hgd
  simp only [hsh1, hsh2]
  refine ⟨trivial, trivial, trivial, trivial, trivial, ?_, ?_, ?_⟩
  · simp [hpow]
  · intro j hj
    rw [getD_range_map _ _ _ _ (by omega : j < (pow2 (s.globalDepth + 1)).toNat)]
    rw [if_pos hj]
  · intro j hj1 hj2
    rw [getD_range_map _ _ _ _ (by omega : j < (pow2 (s.globalDepth + 1)).toNat)]
    rw [if_neg (by omega)]
    have hle : pow2 s.globalDepth ≤ (j : Int) := by
      rw [← hlen]; exact_mod_cast hj1
    rw [if_pos hle]
    have htm : _getBucketIndex (j : Int) s.globalDepth = ((j % s.buckets.length : Nat) : Int) := by
      unfold _getBucketIndex
      rw [pow2, hlen']
      rw [show ((2:Int) ^ s.globalDepth.toNat) = ((2 ^ s.globalDepth.toNat : Nat) : Int) by push_cast; ring]
      rw [← Int.ofNat_tmod]
    rw [htm, Int.toNat_ofNat]

theorem tmod_small (a b : Int) (h0 : 0 ≤ a) (h1 : a < b) : Int.tmod a b = a := by
  rw [Int.tmod_eq_emod h0 (by omega), Int.emod_eq_of_lt h0 h1]

theorem pow2_cast (g : Nat) : pow2 (g : Int) = ((2 ^ g : Nat) : Int) := by
  unfold pow2
  rw [Int.toNat_ofNat]
  push_cast
  ring

theorem slotId_setBkt (s : ExtendibleHashMap) (id : Nat) (b : DataBucket) (i : Int) :
    (s.setBkt id b).slotId i = s.slotId i := rfl

/-- The dispatch of one `add` step: on overflow with full local depth the state
is extended then split, on overflow below the global depth it is split in
place, otherwise the bucket insert is the only effect. -/
theorem add_dispatch (s : ExtendibleHashMap) (key : Int) (fuel : Nat)
    (hgd : 0 ≤ s.globalDepth)
    (hlen : (s.buckets.length : Int) = pow2 s.globalDepth)
    (hkey : 0 ≤ key) :
    ((probeInsert s key).2 = 2 → (probeInsert s key).1.localDepth = s.globalDepth →
        add (fuel + 1) s key
          = (splitImageGo (add fuel) (extend (insertedState s key)) (hashSlot s key)).map
              (fun t => (t, hashSlot s key)))
    ∧ ((probeInsert s key).2 = 2 → (probeInsert s key).1.localDepth ≠ s.globalDepth →
        add (fuel + 1) s key
          = (splitImageGo (add fuel) (insertedState s key) (hashSlot s key)).map
              (fun t => (t, hashSlot s key)))
    ∧ ((probeInsert s key).2 ≠ 2 →
        add (fuel + 1) s key = some (insertedState s key, hashSlot s key)) := by
  have hs1 : chkShift s s.globalDepth = s := chkShift_of_nonneg s _ hgd
  have hidx0 : 0 ≤ _getBucketIndex key s.globalDepth := _getBucketIndex_nonneg key _ hkey
  have hidx1 : _getBucketIndex key s.globalDepth < (s.buckets.length : Int) := by
    rw [hlen]; exact _getBucketIndex_lt key _
  have hs2 : chkSlot s (_getBucketIndex key s.globalDepth) = s :=
    chkSlot_of_range s _ hidx0 hidx1
  refine ⟨?_, ?_, ?_⟩
  · intro hov hld
    simp only [probeInsert, hashSlot] at hov hld
    simp only [add, hs1, hs2, probeInsert, insertedState, hashSlot, setBkt_globalDepth]
    rw [if_pos hov, if_pos hld]
    cases splitImageGo (add fuel)
      (extend (s.setBkt (s.slotId (_getBucketIndex key s.globalDepth))
        ((s.bkt (s.slotId (_getBucketIndex key s.globalDepth))).insert key).1))
      (_getBucketIndex key s.globalDepth) <;> simp
  · intro hov hld
    simp only [probeInsert, hashSlot] at hov hld
    simp only [add, hs1, hs2, probeInsert, insertedState, hashSlot, setBkt_globalDepth]
    rw [if_pos hov, if_neg hld]
    cases splitImageGo (add fuel)
      (s.setBkt (s.slotId (_getBucketIndex key s.globalDepth))
        ((s.bkt (s.slotId (_getBucketIndex key s.globalDepth))).insert key).1)
      (_getBucketIndex key s.globalDepth) <;> simp
  · intro hov
    simp only [probeInsert, hashSlot] at hov
    simp only [add, hs1, hs2, probeInsert, insertedState, hashSlot]
    rw [if_neg hov]

/-- C6: on an insert whose bucket overflows, the directory is extended exactly
when the overflowed bucket's local depth equals the global depth.  The extend
increments the global depth, doubles the slot array, keeps the lower half and
points every new upper-half slot `j` at the bucket slot `j mod 2^oldDepth`
referenced before the extend.  On overflow with local depth equal (resp. not
equal) to the global depth, `add` proceeds as the split of the extended
(resp. unchanged) inserted state; with no overflow the insert is the only
effect and no extend occurs. -/
theorem c6_extend_exactly_on_full_local_depth
    (s : ExtendibleHashMap) (key : Int) (fuel : Nat)
    (hgd : 0 ≤ s.globalDepth)
    (hlen : (s.buckets.length : Int) = pow2 s.globalDepth)
    (hkey : 0 ≤ key) :
    ((extend s).globalDepth = s.globalDepth + 1
      ∧ (extend s).buckets.length = 2 * s.buckets.length
      ∧ (∀ j : Nat, j < s.buckets.length →
          (extend s).buckets.getD j 0 = s.buckets.getD j 0)
      ∧ (∀ j : Nat, s.buckets.length ≤ j → j < 2 * s.buckets.length →
          (extend s).buckets.getD j 0 = s.buckets.getD (j % s.buckets.length) 0))
    ∧ ((probeInsert s key).2 = 2 → (probeInsert s key).1.localDepth = s.globalDepth →
        add (fuel + 1) s key
          = (splitImage fuel (extend (insertedState s key)) (hashSlot s key)).map
              (fun t => (t, hashSlot s key)))
    ∧ ((probeInsert s key).2 = 2 → (probeInsert s key).1.localDepth ≠ s.globalDepth →
        add (fuel + 1) s key
          = (splitImage fuel (insertedState s key) (hashSlot s key)).map
              (fun t => (t, hashSlot s key)))
    ∧ ((probeInsert s key).2 ≠ 2 →
        add (fuel + 1) s key = some (insertedState s key, hashSlot s key)) := by
  obtain ⟨e1, _, _, _, _, e6, e7, e8⟩ := extend_spec s hgd hlen
  obtain ⟨d1, d2, d3⟩ := add_dispatch s key fuel hgd hlen hkey
  exact ⟨⟨e1, e6, e7, e8⟩, d1, d2, d3⟩

/-- C6 witness: applied to the fresh capacity-2 table with key 5 and fuel 0. -/
theorem c6_extend_exactly_on_full_local_depth_witness :
    (extend (mkTable 0 2)).globalDepth = (mkTable 0 2).globalDepth + 1 :=
  (c6_extend_exactly_on_full_local_depth (mkTable 0 2) 5 0
    (by decide) (by decide) (by decide)).1.1

theorem getD_set_self {α : Type} {l : List α} {i : Nat} {a d : α} (h : i < l.length) :
    (l.set i a).getD i d = a := by
  rw [List.getD_eq_getElem?_getD, List.getElem?_set, if_pos rfl, if_pos h]
  rfl

theorem getD_set_ne {α : Type} {l : List α} {i j : Nat} {a d : α} (h : i ≠ j) :
    (l.set i a).getD j d = l.getD j d := by
  rw [List.getD_eq_getElem?_getD, List.getElem?_set, if_neg h, ← List.getD_eq_getElem?_getD]

theorem bkt_setBkt_self (s : ExtendibleHashMap) (id : Nat) (b : DataBucket)
    (h : id < s.heap.length) : (s.setBkt id b).bkt id = b :=
  getD_set_self h

theorem getD_append_lt {l l2 : List DataBucket} {i : Nat} {d : DataBucket}
    (h : i < l.length) : (l ++ l2).getD i d = l.getD i d :=
  List.getD_append l l2 d i h

theorem bkt_set_self {l : List DataBucket} {i : Nat} {b : DataBucket}
    (s : ExtendibleHashMap) (h : i < l.length) :
    ({ s with heap := l.set i b } : ExtendibleHashMap).bkt i = b := by
  unfold ExtendibleHashMap.bkt
  rw [List.getD_eq_getElem?_getD, List.getElem?_set, if_pos rfl, if_pos h]
  rfl

theorem pow2_succ_of_pos (gd : Int) (h : 1 ≤ gd) : pow2 gd = 2 * pow2 (gd - 1) := by
  unfold pow2
  rw [show gd.toNat = (gd - 1).toNat + 1 by omega, pow_succ]
  ring

theorem getD_append_right_self {l : List DataBucket} {b d : DataBucket} :
    (l ++ [b]).getD l.length d = b := by
  rw [List.getD_eq_getElem?_getD, List.getElem?_append, if_neg (by omega)]
  simp

/-- `splitImageGo` on a directory of length `2^globalDepth` with an in-range
split index whose data-copy slot aliases it: it equals the re-insertion of the
drained data from the `splitPrepared` state. -/
theorem splitImageGo_eq (addOne : ExtendibleHashMap → Int → Option (ExtendibleHashMap × Int))
    (s : ExtendibleHashMap) (splitIndex : Int)
    (hgd : 1 ≤ s.globalDepth)
    (hlen : (s.buckets.length : Int) = pow2 s.globalDepth)
    (hsi0 : 0 ≤ splitIndex)
    (hsi1 : splitIndex < pow2 s.globalDepth)
    (halias : s.slotId (splitDataCopy s splitIndex) = s.slotId splitIndex)
    (hid : s.slotId splitIndex < s.heap.length) :
    splitImageGo addOne s splitIndex
      = reinsertGo addOne (splitPrepared s splitIndex) ((s.bkt (s.slotId splitIndex)).data) := by
  have hh : 0 < pow2 (s.globalDepth - 1) := pow2_pos _
  have h2h : pow2 s.globalDepth = 2 * pow2 (s.globalDepth - 1) := pow2_succ_of_pos _ hgd
  have hsh : chkShift s (s.globalDepth - 1) = s := chkShift_of_nonneg s _ (by omega)
  rcases lt_or_ge splitIndex (pow2 (s.globalDepth - 1)) with hcase | hcase
  · have hct : (splitIndex < pow2 (s.globalDepth - 1)) = True := eq_true hcase
    have e1 : chkSlot { s with heap := s.heap ++ [(⟨s.bucketSize, s.globalDepth, []⟩ : DataBucket)] }
        ((s.buckets.length : Int) - (pow2 (s.globalDepth - 1) - splitIndex))
        = { s with heap := s.heap ++ [(⟨s.bucketSize, s.globalDepth, []⟩ : DataBucket)] } := by
      apply chkSlot_of_range <;> simp <;> omega
    have e2 : chkSlot
        { globalDepth := s.globalDepth, bucketSize := s.bucketSize,
          buckets := s.buckets.set ((s.buckets.length : Int) - (pow2 (s.globalDepth - 1) - splitIndex)).toNat s.heap.length,
          heap := s.heap ++ [(⟨s.bucketSize, s.globalDepth, []⟩ : DataBucket)],
          dead := s.dead, ub := s.ub } splitIndex
        = { globalDepth := s.globalDepth, bucketSize := s.bucketSize,
            buckets := s.buckets.set ((s.buckets.length : Int) - (pow2 (s.globalDepth - 1) - splitIndex)).toNat s.heap.length,
            heap := s.heap ++ [(⟨s.bucketSize, s.globalDepth, []⟩ : DataBucket)],
            dead := s.dead, ub := s.ub } := by
      apply chkSlot_of_range
      · exact hsi0
      · simp only [List.length_set]; omega
    have e3 : ExtendibleHashMap.slotId
        { globalDepth := s.globalDepth, bucketSize := s.bucketSize,
          buckets := s.buckets.set ((s.buckets.length : Int) - (pow2 (s.globalDepth - 1) - splitIndex)).toNat s.heap.length,
          heap := s.heap ++ [(⟨s.bucketSize, s.globalDepth, []⟩ : DataBucket)],
          dead := s.dead, ub := s.ub } splitIndex
        = s.slotId splitIndex := by
      unfold ExtendibleHashMap.slotId
      exact getD_set_ne (by omega)
    have e4 : ExtendibleHashMap.bkt
        { globalDepth := s.globalDepth, bucketSize := s.bucketSize,
          buckets := s.buckets.set ((s.buckets.length : Int) - (pow2 (s.globalDepth - 1) - splitIndex)).toNat s.heap.length,
          heap := s.heap ++ [(⟨s.bucketSize, s.globalDepth, []⟩ : DataBucket)],
          dead := s.dead, ub := s.ub } (s.slotId splitIndex)
        = s.bkt (s.slotId splitIndex) := by
      unfold ExtendibleHashMap.bkt
      exact getD_append_lt hid
    simp only [splitImageGo, hsh, hct, if_true, e1, e2, e3, e4, splitPrepared,
      splitNewIndex, splitDataCopy, splitHalf, ExtendibleHashMap.setBkt]
  · have hcf : (splitIndex < pow2 (s.globalDepth - 1)) = False := eq_false (by omega)
    have halias2 : s.slotId (splitIndex - pow2 (s.globalDepth - 1)) = s.slotId splitIndex := by
      have hdc : splitDataCopy s splitIndex = splitIndex - pow2 (s.globalDepth - 1) := by
        unfold splitDataCopy splitHalf
        simp only [hcf, if_false]
      rw [← hdc]; exact halias
    have e1 : chkSlot { s with heap := s.heap ++ [(⟨s.bucketSize, s.globalDepth, []⟩ : DataBucket)] }
        splitIndex
        = { s with heap := s.heap ++ [(⟨s.bucketSize, s.globalDepth, []⟩ : DataBucket)] } := by
      apply chkSlot_of_range
      · exact hsi0
      · simp
        omega
    have e2 : chkSlot
        { globalDepth := s.globalDepth, bucketSize := s.bucketSize,
          buckets := s.buckets.set splitIndex.toNat s.heap.length,
          heap := s.heap ++ [(⟨s.bucketSize, s.globalDepth, []⟩ : DataBucket)],
          dead := s.dead, ub := s.ub } (splitIndex - pow2 (s.globalDepth - 1))
        = { globalDepth := s.globalDepth, bucketSize := s.bucketSize,
            buckets := s.buckets.set splitIndex.toNat s.heap.length,
            heap := s.heap ++ [(⟨s.bucketSize, s.globalDepth, []⟩ : DataBucket)],
            dead := s.dead, ub := s.ub } := by
      apply chkSlot_of_range
      · omega
      · simp only [List.length_set]; omega
    have e3 : ExtendibleHashMap.slotId
        { globalDepth := s.globalDepth, bucketSize := s.bucketSize,
          buckets := s.buckets.set splitIndex.toNat s.heap.length,
          heap := s.heap ++ [(⟨s.bucketSize, s.globalDepth, []⟩ : DataBucket)],
          dead := s.dead, ub := s.ub } (splitIndex - pow2 (s.globalDepth - 1))
        = s.slotId splitIndex := by
      unfold ExtendibleHashMap.slotId
      rw [getD_set_ne (by omega)]
      exact halias2
    have e4 : ExtendibleHashMap.bkt
        { globalDepth := s.globalDepth, bucketSize := s.bucketSize,
          buckets := s.buckets.set splitIndex.toNat s.heap.length,
          heap := s.heap ++ [(⟨s.bucketSize, s.globalDepth, []⟩ : DataBucket)],
          dead := s.dead, ub := s.ub } (s.slotId splitIndex)
        = s.bkt (s.slotId splitIndex) := by
      unfold ExtendibleHashMap.bkt
      exact getD_append_lt hid
    simp only [splitImageGo, hsh, hcf, if_false, e1, e2, e3, e4, splitPrepared,
      splitNewIndex, splitDataCopy, splitHalf, ExtendibleHashMap.setBkt]

/-- C7: on every overflow handled by `add` (after any extend), `splitImage`
creates a fresh bucket whose local depth is the current (post-extend) global
depth and whose capacity is the table's bucket capacity; the fresh bucket is
placed at the image slot when the overflowed slot is in the lower half of the
directory, and at the overflowed slot itself otherwise, with the lower aliased
slot retaining the old bucket; the overflowed bucket is drained entirely, its
local depth incremented by one, and every drained key is fed back one by one
through the same insert entry point `add` at the current global depth. -/
theorem c7_split_fresh_bucket_placement_and_reinsertion
    (s : ExtendibleHashMap) (splitIndex : Int) (fuel : Nat)
    (hgd : 1 ≤ s.globalDepth)
    (hlen : (s.buckets.length : Int) = pow2 s.globalDepth)
    (hsi0 : 0 ≤ splitIndex)
    (hsi1 : splitIndex < pow2 s.globalDepth)
    (halias : s.slotId (splitDataCopy s splitIndex) = s.slotId splitIndex)
    (hid : s.slotId splitIndex < s.heap.length) :
    splitImage fuel s splitIndex
      = reinsertGo (add fuel) (splitPrepared s splitIndex) ((s.bkt (s.slotId splitIndex)).data)
    ∧ (splitPrepared s splitIndex).bkt s.heap.length = ⟨s.bucketSize, s.globalDepth, []⟩
    ∧ (splitPrepared s splitIndex).bkt (s.slotId splitIndex)
        = ⟨(s.bkt (s.slotId splitIndex)).size, (s.bkt (s.slotId splitIndex)).localDepth + 1, []⟩
    ∧ (splitPrepared s splitIndex).buckets.getD (splitNewIndex s splitIndex).toNat 0
        = s.heap.length
    ∧ (splitIndex < splitHalf s →
        splitNewIndex s splitIndex = (getImageIndex s splitIndex).2
          ∧ splitDataCopy s splitIndex = splitIndex)
    ∧ (¬ splitIndex < splitHalf s →
        splitNewIndex s splitIndex = splitIndex
          ∧ splitDataCopy s splitIndex = splitIndex - splitHalf s)
    ∧ (splitDataCopy s splitIndex ≠ splitNewIndex s splitIndex
        ∧ (splitPrepared s splitIndex).buckets.getD (splitDataCopy s splitIndex).toNat 0
            = s.buckets.getD (splitDataCopy s splitIndex).toNat 0)
    ∧ ((splitPrepared s splitIndex).globalDepth = s.globalDepth
        ∧ (splitPrepared s splitIndex).bucketSize = s.bucketSize) := by
  have hh : 0 < splitHalf s := pow2_pos _
  have h2h : pow2 s.globalDepth = 2 * splitHalf s := pow2_succ_of_pos _ hgd
  have hni0 : 0 ≤ splitNewIndex s splitIndex := by
    unfold splitNewIndex; split
    · rw [hlen, h2h]; omega
    · omega
  have hni1 : splitNewIndex s splitIndex < (s.buckets.length : Int) := by
    unfold splitNewIndex; split
    · omega
    · rw [hlen]; omega
  have hdc0 : 0 ≤ splitDataCopy s splitIndex := by
    unfold splitDataCopy; split
    · omega
    · omega
  have hne : splitDataCopy s splitIndex ≠ splitNewIndex s splitIndex := by
    unfold splitDataCopy splitNewIndex; split
    · rw [hlen, h2h]; omega
    · omega
  refine ⟨?_, ?_, ?_, ?_, ?_, ?_, ⟨hne, ?_⟩, rfl, rfl⟩
  · unfold splitImage
    exact splitImageGo_eq (add fuel) s splitIndex hgd hlen hsi0 hsi1 halias hid
  · show ((s.heap ++ [(⟨s.bucketSize, s.globalDepth, []⟩ : DataBucket)]).set (s.slotId splitIndex)
        (⟨(s.bkt (s.slotId splitIndex)).size, (s.bkt (s.slotId splitIndex)).localDepth + 1, []⟩ : DataBucket)).getD
        s.heap.length ⟨0, 0, []⟩ = ⟨s.bucketSize, s.globalDepth, []⟩
    exact (@getD_set_ne DataBucket
        (s.heap ++ [(⟨s.bucketSize, s.globalDepth, []⟩ : DataBucket)])
        (s.slotId splitIndex) s.heap.length
        (⟨(s.bkt (s.slotId splitIndex)).size, (s.bkt (s.slotId splitIndex)).localDepth + 1, []⟩ : DataBucket)
        (⟨0, 0, []⟩ : DataBucket)
        (by omega)).trans
      (@getD_append_right_self s.heap (⟨s.bucketSize, s.globalDepth, []⟩ : DataBucket)
        (⟨0, 0, []⟩ : DataBucket))
  · show ((s.heap ++ [(⟨s.bucketSize, s.globalDepth, []⟩ : DataBucket)]).set (s.slotId splitIndex)
        (⟨(s.bkt (s.slotId splitIndex)).size, (s.bkt (s.slotId splitIndex)).localDepth + 1, []⟩ : DataBucket)).getD
        (s.slotId splitIndex) ⟨0, 0, []⟩
      = ⟨(s.bkt (s.slotId splitIndex)).size, (s.bkt (s.slotId splitIndex)).localDepth + 1, []⟩
    exact @getD_set_self DataBucket
      (s.heap ++ [(⟨s.bucketSize, s.globalDepth, []⟩ : DataBucket)])
      (s.slotId splitIndex)
      (⟨(s.bkt (s.slotId splitIndex)).size, (s.bkt (s.slotId splitIndex)).localDepth + 1, []⟩ : DataBucket)
      (⟨0, 0, []⟩ : DataBucket)
      (by simp only [List.length_append, List.length_cons, List.length_nil]; omega)
  · show (s.buckets.set (splitNewIndex s splitIndex).toNat s.heap.length).getD
        (splitNewIndex s splitIndex).toNat 0 = s.heap.length
    exact getD_set_self (show (splitNewIndex s splitIndex).toNat < s.buckets.length by omega)
  · intro hc
    constructor
    · unfold splitNewIndex getImageIndex splitHalf
      unfold splitHalf at hc
      simp only [eq_true hc, if_true]
    · unfold splitDataCopy
      simp only [eq_true hc, if_true]
  · intro hc
    constructor
    · unfold splitNewIndex
      simp only [eq_false hc, if_false]
    · unfold splitDataCopy
      simp only [eq_false hc, if_false]
  · show (s.buckets.set (splitNewIndex s splitIndex).toNat s.heap.length).getD
        (splitDataCopy s splitIndex).toNat 0 = s.buckets.getD (splitDataCopy s splitIndex).toNat 0
    rw [getD_set_ne (show (splitNewIndex s splitIndex).toNat ≠ (splitDataCopy s splitIndex).toNat by omega)]

/-- C7 witness: applied to the depth-1 capacity-1 table at split index 0 with
fuel 0. -/
theorem c7_split_fresh_bucket_placement_and_reinsertion_witness :
    (splitPrepared (mkTable 1 1) 0).globalDepth = (mkTable 1 1).globalDepth :=
  (c7_split_fresh_bucket_placement_and_reinsertion (mkTable 1 1) 0 0
    (by decide) (by decide) (by decide) (by decide) (by decide) (by decide)).2.2.2.2.2.2.2.1

theorem set_getD_self {α : Type} : ∀ (l : List α) (i : Nat) (d : α), i < l.length →
    l.set i (l.getD i d) = l
  | [], i, d, h => absurd h (by simp)
  | x :: xs, 0, d, _ => rfl
  | x :: xs, i + 1, d, h =>
    congrArg (fun ys => x :: ys) (set_getD_self xs i d (Nat.lt_of_succ_lt_succ h))

theorem foldl_insert_setBkt (id : Nat) :
    ∀ (l : List Int) (t : ExtendibleHashMap), id < t.heap.length →
    l.foldl (fun u e2 => u.setBkt id ((u.bkt id).insert e2).1) t
      = t.setBkt id (l.foldl (fun b e2 => (b.insert e2).1) (t.bkt id))
  | [], t, h => by
    show t = t.setBkt id (t.bkt id)
    unfold ExtendibleHashMap.setBkt ExtendibleHashMap.bkt
    rw [set_getD_self t.heap id _ h]
  | e2 :: rest, t, h => by
    show List.foldl _ (t.setBkt id ((t.bkt id).insert e2).1) rest = _
    rw [foldl_insert_setBkt id rest (t.setBkt id ((t.bkt id).insert e2).1)
      (by show _ < (t.heap.set id _).length; rw [List.length_set]; exact h)]
    unfold ExtendibleHashMap.setBkt ExtendibleHashMap.bkt
    simp only [List.set_set]
    congr 1
    rw [getD_set_self h]
    rfl

theorem mergeStep_dead (t : ExtendibleHashMap) (bi im : Int)
    (hlo : t.slotId (if bi > im then im else bi) < t.heap.length) :
    (mergeStep t bi im).dead
      = t.dead ++ [t.slotId (if bi > im then bi else im)] := by
  simp only [mergeStep]
  rw [foldl_insert_setBkt _ _ _ hlo]
  rfl

theorem mergeStep_spec (t : ExtendibleHashMap) (bi im : Int)
    (h1 : t.slotId (mergeLo bi im) < t.heap.length)
    (h3 : t.slotId (mergeLo bi im) ≠ t.slotId (mergeHi bi im))
    (h4 : (mergeHi bi im).toNat < t.buckets.length)
    (h5 : (mergeLo bi im).toNat ≠ (mergeHi bi im).toNat) :
    (mergeStep t bi im).dead = t.dead ++ [t.slotId (mergeHi bi im)]
    ∧ (mergeStep t bi im).buckets.getD (mergeHi bi im).toNat 0 = t.slotId (mergeLo bi im)
    ∧ (mergeStep t bi im).buckets.getD (mergeLo bi im).toNat 0 = t.slotId (mergeLo bi im)
    ∧ (mergeStep t bi im).bkt (t.slotId (mergeLo bi im))
        = { (t.bkt (t.slotId (mergeHi bi im))).data.foldl (fun b x => (b.insert x).1)
              (t.bkt (t.slotId (mergeLo bi im))) with
            localDepth := ((t.bkt (t.slotId (mergeHi bi im))).data.foldl (fun b x => (b.insert x).1)
              (t.bkt (t.slotId (mergeLo bi im)))).localDepth - 1 }
    ∧ (bi ≠ im → mergeLo bi im < mergeHi bi im)
    ∧ (mergeStep t bi im).globalDepth = t.globalDepth := by
  simp only [mergeLo, mergeHi] at h1 h3 h4 h5
  simp only [mergeStep, mergeLo, mergeHi]
  rw [foldl_insert_setBkt _ _ _ h1]
  simp only [ExtendibleHashMap.slotId] at h1 h3
  have hslot4g : (t.buckets.set (if bi > im then bi else im).toNat
        (t.buckets.getD (if bi > im then im else bi).toNat 0)).getD
        (if bi > im then im else bi).toNat 0
      = t.buckets.getD (if bi > im then im else bi).toNat 0 :=
    getD_set_ne (fun hna => h5 hna.symm)
  simp only [ExtendibleHashMap.setBkt, ExtendibleHashMap.bkt, ExtendibleHashMap.slotId, hslot4g]
  refine ⟨trivial, ?_, trivial, ?_, ?_, trivial⟩
  · exact getD_set_self h4
  · rw [getD_set_ne (fun hna => h3 hna.symm), getD_set_self h1]
    rw [getD_set_self (by simp only [List.length_set]; exact h1)]
  · intro hne2
    by_cases hgt : bi > im
    · simp only [if_pos hgt]; omega
    · simp only [if_neg hgt]; omega

theorem foldl_setBkt_dead (id : Nat) : ∀ (l : List Int) (t : ExtendibleHashMap),
    (l.foldl (fun u e2 => u.setBkt id ((u.bkt id).insert e2).1) t).dead = t.dead
  | [], _ => rfl
  | _ :: rest, t => foldl_setBkt_dead id rest _

theorem setBkt_dead (s : ExtendibleHashMap) (id : Nat) (b : DataBucket) :
    (s.setBkt id b).dead = s.dead := rfl

theorem mergeStep_dead_eq (t : ExtendibleHashMap) (bi im : Int) :
    (mergeStep t bi im).dead = t.dead ++ [t.slotId (mergeHi bi im)] := by
  simp only [mergeStep, mergeHi, setBkt_dead]
  rw [foldl_setBkt_dead]

theorem reduceDirectory_dead (t : ExtendibleHashMap) :
    (reduceDirectory t).dead = t.dead := by
  simp only [reduceDirectory, chkShift_dead]

theorem shrinkCond_iff (t : ExtendibleHashMap) (hne : t.buckets ≠ []) :
    shrinkCond t = true ↔ ∀ id ∈ t.buckets, (t.bkt id).localDepth = t.globalDepth - 1 := by
  unfold shrinkCond
  rw [Bool.and_eq_true, List.all_eq_true]
  constructor
  · rintro ⟨hall, hgd0⟩ id hid
    have h1 := hall id hid
    rw [decide_eq_true_eq] at h1 hgd0
    rw [h1, ← hgd0]
  · intro h
    have h0 : t.buckets.getD 0 0 ∈ t.buckets := by
      cases hb : t.buckets with
      | nil => exact absurd hb hne
      | cons a l => simp [List.getD]
    constructor
    · intro id hid
      rw [decide_eq_true_eq, h id hid, h _ h0]
    · rw [decide_eq_true_eq, h _ h0]

theorem reduceDirectory_spec (t : ExtendibleHashMap) (h : 1 ≤ t.globalDepth) :
    (reduceDirectory t).globalDepth = t.globalDepth - 1
    ∧ (reduceDirectory t).buckets = t.buckets.take (pow2 (t.globalDepth - 1)).toNat
    ∧ (reduceDirectory t).heap = t.heap
    ∧ (reduceDirectory t).dead = t.dead := by
  have hc : ∀ u : ExtendibleHashMap, chkShift u (t.globalDepth - 1) = u := fun u =>
    chkShift_of_nonneg u _ (by omega)
  simp only [reduceDirectory, hc]
  exact ⟨by trivial, by trivial, by trivial, by trivial⟩

theorem remove_eq (s : ExtendibleHashMap) (key : Int)
    (hgd : 1 ≤ s.globalDepth) (hlen : (s.buckets.length : Int) = pow2 s.globalDepth)
    (hkey : 0 ≤ key) :
    remove s key
      = (let e := removeErased s key
         let i := hashSlot s key
         let img := (getImageIndex s i).2
         let s5 := if mergeCond e i img then mergeStep e i img else e
         if shrinkCond s5 then reduceDirectory s5 else s5) := by
  have hs0 : chkShift s s.globalDepth = s := chkShift_of_nonneg s _ (by omega)
  have hs1 : chkShift s (s.globalDepth - 1) = s := chkShift_of_nonneg s _ (by omega)
  have hi0 : 0 ≤ _getBucketIndex key s.globalDepth := _getBucketIndex_nonneg key _ hkey
  have hi1 : _getBucketIndex key s.globalDepth < (s.buckets.length : Int) := by
    rw [hlen]; exact _getBucketIndex_lt key _
  have hsl : chkSlot s (_getBucketIndex key s.globalDepth) = s := chkSlot_of_range s _ hi0 hi1
  simp only [remove, getImageIndex, hs0, hs1, hsl, hashSlot, removeErased]

/-- C8: `remove` erases the key from its hashed bucket and then (1) merges
exactly when the image slot index differs from the hashed slot index and both
referenced buckets' post-erase sizes are at most `bucketSize / 2`; (2) a merge
designates the lower slot index as survivor, moves every key of the higher
bucket into the survivor's bucket, releases the higher bucket, repoints the
higher slot to the survivor and decrements the survivor's local depth by one;
(3) the merge happens at most once per call (the dead list grows by at most
one); (4) afterwards the directory shrinks (global depth decremented, slot
array halved) exactly when every bucket's local depth is `globalDepth - 1`. -/
theorem c8_remove_merge_and_shrink_behaviour
    (s : ExtendibleHashMap) (key : Int)
    (hgd : 1 ≤ s.globalDepth)
    (hlen : (s.buckets.length : Int) = pow2 s.globalDepth)
    (hkey : 0 ≤ key) :
    (remove s key
      = (let e := removeErased s key
         let i := hashSlot s key
         let img := (getImageIndex s i).2
         let s5 := if mergeCond e i img then mergeStep e i img else e
         if shrinkCond s5 then reduceDirectory s5 else s5))
    ∧ (mergeCond (removeErased s key) (hashSlot s key) (getImageIndex s (hashSlot s key)).2 = true
        ↔ ((getImageIndex s (hashSlot s key)).2 ≠ hashSlot s key
          ∧ (((removeErased s key).bkt ((removeErased s key).slotId (hashSlot s key))).data.length : Int)
              ≤ Int.tdiv s.bucketSize 2
          ∧ (((removeErased s key).bkt ((removeErased s key).slotId
                ((getImageIndex s (hashSlot s key)).2))).data.length : Int)
              ≤ Int.tdiv s.bucketSize 2))
    ∧ (∀ (t : ExtendibleHashMap) (bi im : Int),
        t.slotId (mergeLo bi im) < t.heap.length →
        t.slotId (mergeLo bi im) ≠ t.slotId (mergeHi bi im) →
        (mergeHi bi im).toNat < t.buckets.length →
        (mergeLo bi im).toNat ≠ (mergeHi bi im).toNat →
          (mergeStep t bi im).dead = t.dead ++ [t.slotId (mergeHi bi im)]
          ∧ (mergeStep t bi im).buckets.getD (mergeHi bi im).toNat 0 = t.slotId (mergeLo bi im)
          ∧ (mergeStep t bi im).buckets.getD (mergeLo bi im).toNat 0 = t.slotId (mergeLo bi im)
          ∧ (mergeStep t bi im).bkt (t.slotId (mergeLo bi im))
              = { (t.bkt (t.slotId (mergeHi bi im))).data.foldl (fun b x => (b.insert x).1)
                    (t.bkt (t.slotId (mergeLo bi im))) with
                  localDepth := ((t.bkt (t.slotId (mergeHi bi im))).data.foldl (fun b x => (b.insert x).1)
                    (t.bkt (t.slotId (mergeLo bi im)))).localDepth - 1 }
          ∧ (bi ≠ im → mergeLo bi im < mergeHi bi im)
          ∧ (mergeStep t bi im).globalDepth = t.globalDepth)
    ∧ (∀ t : ExtendibleHashMap, t.buckets ≠ [] →
        (shrinkCond t = true ↔ ∀ id ∈ t.buckets, (t.bkt id).localDepth = t.globalDepth - 1))
    ∧ (∀ t : ExtendibleHashMap, 1 ≤ t.globalDepth →
        (reduceDirectory t).globalDepth = t.globalDepth - 1
        ∧ (reduceDirectory t).buckets = t.buckets.take (pow2 (t.globalDepth - 1)).toNat
        ∧ (reduceDirectory t).heap = t.heap
        ∧ (reduceDirectory t).dead = t.dead)
    ∧ (remove s key).dead.length ≤ s.dead.length + 1 := by
  refine ⟨remove_eq s key hgd hlen hkey, ?_, mergeStep_spec, shrinkCond_iff,
    reduceDirectory_spec, ?_⟩
  · have hbs : (removeErased s key).bucketSize = s.bucketSize := rfl
    simp only [mergeCond, Bool.and_eq_true, decide_eq_true_eq, and_assoc, hbs]
  · rw [remove_eq s key hgd hlen hkey]
    have hre : (removeErased s key).dead = s.dead := rfl
    cases hm : mergeCond (removeErased s key) (hashSlot s key)
        (getImageIndex s (hashSlot s key)).2 with
    | false =>
      cases hs : shrinkCond (removeErased s key) with
      | false => simp [hm, hs, hre]
      | true => simp [hm, hs, reduceDirectory_dead, hre]
    | true =>
      cases hs : shrinkCond (mergeStep (removeErased s key) (hashSlot s key)
          (getImageIndex s (hashSlot s key)).2) with
      | false =>
        simp [hm, hs, mergeStep_dead_eq, hre]
      | true =>
        simp [hm, hs, reduceDirectory_dead, mergeStep_dead_eq, hre]

/-- C8 witness: applied to the depth-1 capacity-2 table with key 0. -/
theorem c8_remove_merge_and_shrink_behaviour_witness :
    (remove (mkTable 1 2) 0).dead.length ≤ (mkTable 1 2).dead.length + 1 :=
  (c8_remove_merge_and_shrink_behaviour (mkTable 1 2) 0
    (by decide) (by decide) (by decide)).2.2.2.2.2

/-- C1: the reference-counting invariant ("each live bucket with local depth d
is referenced by exactly 2^(globalDepth - d) slots, agreeing on the low d
bits") is not preserved by every insert.  With bucket capacity 1, after the
inserts 0, 2, 4, 3 the invariant holds; the further insert of 5 breaks it: the
bucket holding key 3 ends with local depth 2 at global depth 3 but is
referenced by 3 slots (1, 3 and 7), where the invariant demands exactly
2^(3-2) = 2 slots agreeing on the low 2 bits. -/
theorem c1_insert_breaks_refInvariant :
    (insertAll 30 (mkTable 0 1) [0, 2, 4, 3]).map refInvariant = some true
    ∧ (insertAll 30 (mkTable 0 1) [0, 2, 4, 3, 5]).map refInvariant = some false
    ∧ (insertAll 30 (mkTable 0 1) [0, 2, 4, 3, 5]).map
        (fun s => (refCount s 1, (s.bkt 1).localDepth, s.globalDepth,
          refIndices s 1, decide (1 ∈ s.dead)))
      = some (3, 2, 3, [1, 3, 7], false) := by
  exact ⟨by decide, by decide, by decide⟩

/-- C2 counterexample: with capacity 2, after inserting 1 and 2, `insert 3`
overflows, extends the directory to global depth 1, and returns slot 0 (its
entry-time address), while key 3 ends up in the bucket of slot 1 = 3 mod 2^1;
the bucket at the returned slot 0 does not contain the key. -/
theorem c2_insert_returns_entry_address_not_final :
    ((insertAll 30 (mkTable 0 2) [1, 2]).bind (fun s => add 30 s 3)).map
      (fun p => (p.2, _getBucketIndex 3 p.1.globalDepth,
        (p.1.bkt (p.1.slotId (_getBucketIndex 3 p.1.globalDepth))).data.contains 3,
        (p.1.bkt (p.1.slotId p.2)).data.contains 3))
    = some (0, 1, true, false) := by decide

/-- C2 amended: whenever `add` returns, the returned index is the slot index
computed at entry, `key mod 2^(globalDepth before the call)`. -/
theorem c2_amended_insert_returns_entry_slot
    (fuel : Nat) (s : ExtendibleHashMap) (key : Int)
    (s2 : ExtendibleHashMap) (i : Int)
    (h : add (fuel + 1) s key = some (s2, i)) :
    i = _getBucketIndex key s.globalDepth := by
  simp only [add, chkShift_globalDepth] at h
  split at h
  · split at h
    · exact absurd h (by simp)
    · rename_i heq
      rw [show s2 = s2 from rfl] at h
      injection h with h1
      injection h1 with h2 h3
      exact h3.symm
  · injection h with h1
    injection h1 with h2 h3
    exact h3.symm

/-- C2 amended, witness: inserting 0 into a fresh capacity-2 table returns
slot index 0 mod 2^0 = 0. -/
theorem c2_amended_insert_returns_entry_slot_witness :
    (0 : Int) = _getBucketIndex 0 (mkTable 0 2).globalDepth :=
  c2_amended_insert_returns_entry_slot 0 (mkTable 0 2) 0
    ⟨0, 2, [0], [⟨2, 0, [0]⟩], [], false⟩ 0 (by decide)

/-- C3: removing the absent key 1 is not a no-op.  With capacity 2, after the
inserts 0, 2, 4 the key 1 is present nowhere, yet `remove 1` changes the
state: the bucket referenced by slot 1 (and slot 3) has its local depth
decremented from 1 to 0 and is released (merge of the aliased pair 1 and 3). -/
theorem c3_absent_remove_mutates_state :
    insertAll 30 (mkTable 0 2) [0, 2, 4] = some c3s
    ∧ keyPresent c3s 1 = false
    ∧ c3r ≠ c3s
    ∧ (c3s.dead, c3r.dead) = ([], [1])
    ∧ ((c3s.bkt (c3s.slotId 1)).localDepth, (c3r.bkt (c3r.slotId 1)).localDepth) = (1, 0)
    ∧ (c3s.globalDepth, c3r.globalDepth, c3s.buckets.length, c3r.buckets.length) = (2, 2, 4, 4) :=
  ⟨by decide, by decide, by decide, by decide, by decide, by decide⟩

/-- C4: `remove` on a fresh table at global depth 0 computes the shift amount
`globalDepth - 1 = -1` inside `getImageIndex` (`1 << -1`, undefined behaviour
in C++); the model's UB flag goes from false to true on this public call. -/
theorem c4_remove_at_global_depth_zero_is_ub :
    (mkTable 0 2).ub = false ∧ (remove (mkTable 0 2) 0).ub = true := by decide

/-- C5: with capacity 2, after inserting 1..5 the slots 0 and 2 alias one live
bucket (id 0, local depth 1, data {2,4}); `remove 4` then takes the merge
branch because the image index 2 differs from the hashed index 0 although both
slots reference the same bucket: that bucket is released while slots 0 and 2
still reference it, its keys are merged into itself, and its local depth drops
to 0, below the depth 1 required for its 2 referencing slots at global depth 2
(2^(2-0) = 4 ≠ 2). -/
theorem c5_merge_on_aliased_slots_releases_live_bucket :
    insertAll 30 (mkTable 0 2) [1, 2, 3, 4, 5] = some c5s
    ∧ (c5s.slotId 0, c5s.slotId 2, (c5s.bkt 0).localDepth) = (0, 0, 1)
    ∧ ((getImageIndex c5s 0).2, (c5s.bkt 0).data, c5s.dead) = (2, [2, 4], [])
    ∧ (c5r.dead, c5r.slotId 0, c5r.slotId 2) = ([0], 0, 0)
    ∧ ((c5r.bkt 0).localDepth, refCount c5r 0, c5r.globalDepth) = (0, 2, 2)
    ∧ pow2 (c5r.globalDepth - (c5r.bkt 0).localDepth) ≠ (refCount c5r 0 : Int) :=
  ⟨by decide, by decide, by decide, by decide, by decide, by decide⟩

/-- Any fuel runs out on `add t 4` from a state where slots 2 and 4 alias one
bucket `⟨1, d, [2]⟩`: inserting 4 overflows it, the split sends the fresh
bucket to a slot outside `{2, 4}`, and the drained keys `[2, 4]` re-create the
same shape one level deeper. -/
theorem addLoopNone (f : Nat) : ∀ (t : ExtendibleHashMap) (g : Nat) (d : Int) (idA : Nat),
    t.bucketSize = 1 →
    t.globalDepth = (g : Int) →
    4 ≤ g →
    t.buckets.length = 2 ^ g →
    t.slotId 2 = idA →
    t.slotId 4 = idA →
    idA < t.heap.length →
    t.bkt idA = (⟨1, d, [2]⟩ : DataBucket) →
    d ≤ (g : Int) →
    add f t 4 = none := by
  induction f with
  | zero =>
    intro t g d idA _ _ _ _ _ _ _ _ _
    rfl
  | succ f ih =>
    intro t g d idA hbs hgd hg4 hlen hs2 hs4 hida hbkt hdg
    have h16 : 16 ≤ 2 ^ g := by
      calc (16 : Nat) = 2 ^ 4 := by norm_num
      _ ≤ 2 ^ g := Nat.pow_le_pow_right (by norm_num) hg4
    have hgd0 : 0 ≤ t.globalDepth := by rw [hgd]; omega
    have hlenI : (t.buckets.length : Int) = pow2 t.globalDepth := by
      rw [hlen, hgd, pow2_cast]
    have hhs : hashSlot t 4 = 4 := by
      unfold hashSlot _getBucketIndex
      rw [hgd, pow2_cast]
      exact tmod_small 4 _ (by norm_num) (by exact_mod_cast (by omega : 4 < 2 ^ g))
    have hprobe : probeInsert t 4 = ((⟨1, d, [2, 4]⟩ : DataBucket), 2) := by
      unfold probeInsert
      rw [hhs, hs4, hbkt]
      rfl
    obtain ⟨dis1, dis2, _⟩ := add_dispatch t 4 f hgd0 hlenI (by norm_num)
    -- the shared part: the split of a state with the `[2, 4]` bucket aliased
    -- at slots 2 and 4
    have key : ∀ (E : ExtendibleHashMap) (g' : Nat),
        E.bucketSize = 1 →
        E.globalDepth = (g' : Int) →
        4 ≤ g' →
        E.buckets.length = 2 ^ g' →
        E.slotId 2 = idA →
        E.slotId 4 = idA →
        idA < E.heap.length →
        E.bkt idA = (⟨1, d, [2, 4]⟩ : DataBucket) →
        d + 1 ≤ (g' : Int) →
        splitImageGo (add f) E 4 = none := by
      intro E g' hEbs hEgd hEg4 hElen hEs2 hEs4 hEida hEbkt hEd
      have h16' : 16 ≤ 2 ^ g' := by
        calc (16 : Nat) = 2 ^ 4 := by norm_num
        _ ≤ 2 ^ g' := Nat.pow_le_pow_right (by norm_num) hEg4
      have h8 : 8 ≤ 2 ^ (g' - 1) := by
        calc (8 : Nat) = 2 ^ 3 := by norm_num
        _ ≤ 2 ^ (g' - 1) := Nat.pow_le_pow_right (by norm_num) (by omega)
      have hg'1 : (1 : Int) ≤ E.globalDepth := by rw [hEgd]; omega
      have hlenI' : (E.buckets.length : Int) = pow2 E.globalDepth := by
        rw [hElen, hEgd, pow2_cast]
      have hhalf : splitHalf E = ((2 ^ (g' - 1) : Nat) : Int) := by
        unfold splitHalf
        rw [hEgd, show (g' : Int) - 1 = ((g' - 1 : Nat) : Int) by omega, pow2_cast]
      have h4h : (4 : Int) < splitHalf E := by
        rw [hhalf]; exact_mod_cast (by omega : 4 < 2 ^ (g' - 1))
      have hdc : splitDataCopy E 4 = 4 := by
        unfold splitDataCopy
        rw [if_pos h4h]
      have hsplit := splitImageGo_eq (add f) E 4 hg'1 hlenI' (by norm_num)
        (by rw [hEgd, pow2_cast]; exact_mod_cast (by omega : 4 < 2 ^ g'))
        (by rw [hdc])
        (by rw [hEs4]; exact hEida)
      rw [hEs4, hEbkt] at hsplit
      have hnbi : (splitNewIndex E 4).toNat = 2 ^ (g' - 1) + 4 := by
        unfold splitNewIndex
        rw [if_pos h4h, hhalf, hElen]
        have hp : (2 : Nat) ^ g' = 2 * 2 ^ (g' - 1) := by
          rw [← pow_succ']
          congr 1
          omega
        rw [hp]
        omega
      have hPs2 : (splitPrepared E 4).slotId 2 = idA := by
        show ((splitPrepared E 4).buckets.getD 2 0) = idA
        simp only [splitPrepared]
        rw [getD_set_ne (by omega)]
        exact hEs2
      have hPs4 : (splitPrepared E 4).slotId 4 = idA := by
        show ((splitPrepared E 4).buckets.getD 4 0) = idA
        simp only [splitPrepared]
        rw [getD_set_ne (by omega)]
        exact hEs4
      have hPida : idA < (splitPrepared E 4).heap.length := by
        simp only [splitPrepared, List.length_set, List.length_append,
          List.length_singleton]
        omega
      have hPbkt : (splitPrepared E 4).bkt idA = (⟨1, d + 1, []⟩ : DataBucket) := by
        show ((E.heap ++ [(⟨E.bucketSize, E.globalDepth, []⟩ : DataBucket)]).set (E.slotId 4)
            (⟨(E.bkt (E.slotId 4)).size, (E.bkt (E.slotId 4)).localDepth + 1, []⟩ : DataBucket)).getD
            idA ⟨0, 0, []⟩
          = (⟨1, d + 1, []⟩ : DataBucket)
        rw [hEs4, hEbkt,
          getD_set_self (by simp only [List.length_append, List.length_singleton]; omega)]
      have hPlen : (splitPrepared E 4).buckets.length = 2 ^ g' := by
        show (E.buckets.set (splitNewIndex E 4).toNat E.heap.length).length = 2 ^ g'
        rw [List.length_set, hElen]
      rw [hsplit]
      show reinsertGo (add f) (splitPrepared E 4) [2, 4] = none
      cases f with
      | zero => rfl
      | succ f2 =>
        have hPgd : (splitPrepared E 4).globalDepth = (g' : Int) := hEgd
        have hPgd0 : 0 ≤ (splitPrepared E 4).globalDepth := by rw [hPgd]; omega
        have hPlenI : ((splitPrepared E 4).buckets.length : Int)
            = pow2 (splitPrepared E 4).globalDepth := by
          rw [hPlen, hPgd, pow2_cast]
        have hPhs : hashSlot (splitPrepared E 4) 2 = 2 := by
          unfold hashSlot _getBucketIndex
          rw [hPgd, pow2_cast]
          exact tmod_small 2 _ (by norm_num) (by exact_mod_cast (by omega : 2 < 2 ^ g'))
        have hPprobe : probeInsert (splitPrepared E 4) 2
            = ((⟨1, d + 1, [2]⟩ : DataBucket), 0) := by
          unfold probeInsert
          rw [hPhs, hPs2, hPbkt]
          rfl
        obtain ⟨_, _, dis3⟩ := add_dispatch (splitPrepared E 4) 2 f2 hPgd0 hPlenI (by norm_num)
        have hstep2 : add (f2 + 1) (splitPrepared E 4) 2
            = some ((splitPrepared E 4).setBkt idA (⟨1, d + 1, [2]⟩ : DataBucket), 2) := by
          rw [dis3 (by rw [hPprobe]; show (0 : Int) ≠ 2; decide)]
          unfold insertedState
          rw [hPhs, hPs2, hPprobe]
        have hu : add (f2 + 1)
            ((splitPrepared E 4).setBkt idA (⟨1, d + 1, [2]⟩ : DataBucket)) 4 = none := by
          apply ih _ g' (d + 1) idA
          · exact hEbs
          · exact hPgd
          · exact hEg4
          · exact hPlen
          · exact hPs2
          · exact hPs4
          · show idA < ((splitPrepared E 4).heap.set idA (⟨1, d + 1, [2]⟩ : DataBucket)).length
            rw [List.length_set]
            exact hPida
          · exact bkt_setBkt_self (splitPrepared E 4) idA _ hPida
          · exact hEd
        simp only [reinsertGo, hstep2, hu]
    -- the state after the failed bucket insert of 4
    have ht' : insertedState t 4 = t.setBkt idA (⟨1, d, [2, 4]⟩ : DataBucket) := by
      unfold insertedState
      rw [hhs, hs4, hprobe]
    have ht'bs : (insertedState t 4).bucketSize = 1 := by rw [ht']; exact hbs
    have ht'gd : (insertedState t 4).globalDepth = (g : Int) := by rw [ht']; exact hgd
    have ht'len : (insertedState t 4).buckets.length = 2 ^ g := by rw [ht']; exact hlen
    have ht's2 : (insertedState t 4).slotId 2 = idA := by rw [ht']; exact hs2
    have ht's4 : (insertedState t 4).slotId 4 = idA := by rw [ht']; exact hs4
    have ht'ida : idA < (insertedState t 4).heap.length := by
      rw [ht']
      show idA < (t.heap.set idA (⟨1, d, [2, 4]⟩ : DataBucket)).length
      rw [List.length_set]
      exact hida
    have ht'bkt : (insertedState t 4).bkt idA = (⟨1, d, [2, 4]⟩ : DataBucket) := by
      rw [ht']
      exact bkt_setBkt_self t idA _ hida
    by_cases hdeq : d = t.globalDepth
    · -- overflow at full local depth: extend, then split
      have hstep := dis1 (by rw [hprobe]) (by rw [hprobe]; exact hdeq)
      rw [hhs] at hstep
      obtain ⟨e1, e2, e3, _, _, e6, e7, _⟩ := extend_spec (insertedState t 4)
        (by rw [ht'gd]; omega) (by rw [ht'len, ht'gd, pow2_cast])
      have hkey := key (extend (insertedState t 4)) (g + 1)
        (by rw [e2]; exact ht'bs)
        (by rw [e1, ht'gd]; push_cast; ring)
        (by omega)
        (by rw [e6, ht'len, pow_succ]; ring)
        (by show (extend (insertedState t 4)).buckets.getD 2 0 = idA
            rw [e7 2 (by rw [ht'len]; omega)]
            exact ht's2)
        (by show (extend (insertedState t 4)).buckets.getD 4 0 = idA
            rw [e7 4 (by rw [ht'len]; omega)]
            exact ht's4)
        (by rw [e3]; exact ht'ida)
        (by show (extend (insertedState t 4)).heap.getD idA ⟨0, 0, []⟩
              = (⟨1, d, [2, 4]⟩ : DataBucket)
            rw [e3]
            exact ht'bkt)
        (by omega)
      rw [hstep, hkey]
      rfl
    · -- overflow below the global depth: split in place
      have hstep := dis2 (by rw [hprobe]) (by rw [hprobe]; exact hdeq)
      rw [hhs] at hstep
      have hkey := key (insertedState t 4) g ht'bs ht'gd hg4 ht'len ht's2 ht's4
        ht'ida ht'bkt (by omega)
      rw [hstep, hkey]
      rfl

/-- C10: the insert cascade does not always terminate.  From a fresh
capacity-1 table, inserting 9, 4, 15, 1 reaches `divState`; there the call
`insert(2)` exhausts every fuel bound: the drained keys 2 and 4 re-enter the
same aliased bucket each round while the depths grow without bound, so the
recursion of `add` through `splitImage` never returns. -/
theorem c10_insert_cascade_diverges :
    insertAll 30 (mkTable 0 1) [9, 4, 15, 1] = some divState
    ∧ ∀ fuel : Nat, add fuel divState 2 = none := by
  refine ⟨by decide, ?_⟩
  intro fuel
  cases fuel with
  | zero => rfl
  | succ f =>
    obtain ⟨_, dis2, _⟩ := add_dispatch divState 2 f (by decide) (by decide) (by decide)
    have hstep := dis2 (by decide) (by decide)
    rw [show hashSlot divState 2 = 2 from by decide,
      show insertedState divState 2 = divS3 from by decide] at hstep
    have hsp := splitImageGo_eq (add f) divS3 2 (by decide) (by decide) (by decide)
      (by decide) (by decide) (by decide)
    rw [show splitPrepared divS3 2 = divP0 from by decide,
      show (divS3.bkt (divS3.slotId 2)).data = [2, 4] from rfl] at hsp
    rw [hstep, hsp]
    suffices h : reinsertGo (add f) divP0 [2, 4] = none by rw [h]; rfl
    cases f with
    | zero => rfl
    | succ f2 =>
      obtain ⟨_, _, d3⟩ := add_dispatch divP0 2 f2 (by decide) (by decide) (by decide)
      have h1 := d3 (by decide)
      rw [show insertedState divP0 2 = divP1 from by decide,
        show hashSlot divP0 2 = 2 from by decide] at h1
      have h2 : add (f2 + 1) divP1 4 = none :=
        addLoopNone (f2 + 1) divP1 4 2 0 (by decide) (by decide) (by decide) (by decide)
          (by decide) (by decide) (by decide) (by decide) (by decide)
      simp only [reinsertGo, h1, h2]

end Hashing
